import Mathlib

/-!
Verification development for the task-master dependency-aware task graph
engine and its installer scripts.  The engine itself (identifier resolver,
storage engine, dependency graph, status machine, next-task selector, mode
controller) is specified by the repository's PRD and design documents; the
definitions below embed that design faithfully.  The installer
`scripts/install-bun-binary.js` and the installer copy embedded in
`.taskmaster/docs/prd-port.md` are embedded directly from their JavaScript
source.
-/

/-! ## Basic enumerations -/

/-- Task status values. Modelled from the spec: the StatusMachine states
`pending`, `in-progress`, `done`, `deferred`, `cancelled`, `blocked`. -/
inductive Status where
  | pending
  | inProgress
  | done
  | deferred
  | cancelled
  | blocked
deriving DecidableEq

/-- Task priority values. Modelled from the spec: rank order
`critical` greater than `high` greater than `medium` greater than `low`. -/
inductive Priority where
  | low
  | medium
  | high
  | critical
deriving DecidableEq

/-- Error taxonomy. Modelled from the spec section 7. -/
inductive TMErr where
  | malformedIdentifier
  | notFound
  | selfDependency
  | unresolvableCycle
  | dependencyNotSatisfied
  | corruptDocument
  | writeFailure
deriving DecidableEq

/-! ## Hierarchical identifiers

Modelled from the spec: an identifier is a non-empty ordered sequence of
integer segments rendered as dot-separated decimal strings; `parse` fails
with `MalformedIdentifier` on empty segments, non-numeric segments, or
leading zeros beyond a single `"0"`. -/

abbrev TaskId := List Nat

/-- The decimal digit character for a value below ten. -/
def digCh (n : Nat) : Char := Char.ofNat (48 + n)

/-- Fueled most-significant-first decimal rendering of a natural number. -/
def natDigitsAux : Nat → Nat → List Char
  | 0, _ => []
  | fuel + 1, n => if n < 10 then [digCh n] else natDigitsAux fuel (n / 10) ++ [digCh (n % 10)]

/-- Decimal rendering of a natural number, without leading zeros. -/
def natDigits (n : Nat) : List Char := natDigitsAux (n + 1) n

/-- A valid identifier segment: non-empty, all digits, and no leading zero
unless the segment is exactly `"0"`. -/
def validSeg : List Char → Bool
  | [] => false
  | c :: cs => (c :: cs).all Char.isDigit && (c != '0' || cs.isEmpty)

/-- Numeric value of a digit string. -/
def segVal (cs : List Char) : Nat := cs.foldl (fun a c => 10 * a + (c.toNat - 48)) 0

/-- Parse one identifier segment. -/
def parseSeg (cs : List Char) : Except TMErr Nat :=
  if validSeg cs then .ok (segVal cs) else .error .malformedIdentifier

/-- Parse a list of segments, failing on the first invalid one. -/
def parseSegs : List (List Char) → Except TMErr (List Nat)
  | [] => .ok []
  | s :: rest =>
    match parseSeg s, parseSegs rest with
    | .ok n, .ok ns => .ok (n :: ns)
    | .error e, _ => .error e
    | .ok _, .error e => .error e

/-- Parse a hierarchical identifier string such as `"1.2.3"`. -/
def parseTaskId (s : String) : Except TMErr TaskId := parseSegs (s.data.splitOn '.')

/-- Render an identifier back to its dot-separated decimal string. -/
def renderTaskId (id : TaskId) : String :=
  String.mk (List.intercalate ['.'] (id.map natDigits))

/-! ### Identifier lemmas -/

theorem digCh_isDigit {d : Nat} (h : d < 10) : (digCh d).isDigit = true := by
  interval_cases d <;> decide

theorem digCh_toNat {d : Nat} (h : d < 10) : (digCh d).toNat = 48 + d := by
  interval_cases d <;> decide

theorem digCh_ne_zero {d : Nat} (h0 : 0 < d) (h : d < 10) : digCh d ≠ '0' := by
  interval_cases d <;> decide

theorem natDigitsAux_ne_nil {fuel n : Nat} (h : n < fuel) : natDigitsAux fuel n ≠ [] := by
  induction fuel with
  | zero => omega
  | succ fuel _ =>
    rw [natDigitsAux]
    by_cases h10 : n < 10
    · simp [h10]
    · simp [h10]

theorem natDigitsAux_all_digit {fuel : Nat} :
    ∀ {n : Nat}, n < fuel → ∀ c ∈ natDigitsAux fuel n, c.isDigit = true := by
  induction fuel with
  | zero => omega
  | succ fuel ih =>
    intro n h c hc
    rw [natDigitsAux] at hc
    by_cases h10 : n < 10
    · simp [h10] at hc
      subst hc
      exact digCh_isDigit h10
    · simp [h10] at hc
      rcases hc with hc | hc
      · exact ih (by omega) c hc
      · subst hc
        exact digCh_isDigit (by omega)

theorem natDigitsAux_head_ne_zero {fuel : Nat} :
    ∀ {n : Nat}, n < fuel → 1 ≤ n → (natDigitsAux fuel n).head? ≠ some '0' := by
  induction fuel with
  | zero => omega
  | succ fuel ih =>
    intro n h h1
    rw [natDigitsAux]
    by_cases h10 : n < 10
    · simp only [h10, if_true, List.head?]
      intro hc
      exact digCh_ne_zero h1 h10 (by injection hc)
    · simp only [h10, if_false]
      obtain ⟨c, cs, hcc⟩ :=
        List.exists_cons_of_ne_nil (@natDigitsAux_ne_nil fuel (n / 10) (by omega))
      rw [hcc, List.cons_append, List.head?]
      have := @ih (n / 10) (by omega) (by omega)
      rw [hcc, List.head?] at this
      exact this

theorem natDigitsAux_foldl {fuel : Nat} :
    ∀ {n : Nat} (a : Nat), n < fuel →
      (natDigitsAux fuel n).foldl (fun a c => 10 * a + (c.toNat - 48)) a =
        a * 10 ^ (natDigitsAux fuel n).length + n := by
  induction fuel with
  | zero => omega
  | succ fuel ih =>
    intro n a h
    rw [natDigitsAux]
    by_cases h10 : n < 10
    · simp only [h10, if_true, List.foldl_cons, List.foldl_nil, List.length_cons,
        List.length_nil, pow_one, digCh_toNat h10]
      omega
    · simp only [h10, if_false, List.foldl_append, List.foldl_cons, List.foldl_nil,
        List.length_append, List.length_cons, List.length_nil]
      rw [ih a (by omega)]
      rw [digCh_toNat (by omega)]
      have hmod : (48 + n % 10) - 48 = n % 10 := by omega
      rw [hmod, Nat.mul_add, Nat.add_assoc, Nat.div_add_mod]
      ring

theorem segVal_natDigits (n : Nat) : segVal (natDigits n) = n := by
  unfold segVal natDigits
  rw [natDigitsAux_foldl 0 (Nat.lt_succ_self n)]
  simp

theorem validSeg_natDigits (n : Nat) : validSeg (natDigits n) = true := by
  unfold natDigits
  obtain ⟨c, cs, hcc⟩ :=
    List.exists_cons_of_ne_nil (natDigitsAux_ne_nil (Nat.lt_succ_self n))
  rw [hcc, validSeg]
  have hdig : ∀ x ∈ c :: cs, Char.isDigit x = true := by
    rw [← hcc]
    exact natDigitsAux_all_digit (Nat.lt_succ_self n)
  refine (Bool.and_eq_true _ _).mpr ⟨List.all_eq_true.mpr hdig, ?_⟩
  by_cases h1 : 1 ≤ n
  · have := natDigitsAux_head_ne_zero (Nat.lt_succ_self n) h1
    rw [hcc, List.head?] at this
    have hc0 : c ≠ '0' := by
      intro hc
      exact this (by rw [hc])
    simp [hc0]
  · have hn0 : n = 0 := by omega
    subst hn0
    have : natDigitsAux 1 0 = ['0'] := by decide
    rw [this] at hcc
    injection hcc with h1 h2
    subst h1; subst h2
    decide

theorem parseSeg_natDigits (n : Nat) : parseSeg (natDigits n) = .ok n := by
  rw [parseSeg, validSeg_natDigits, if_pos rfl, segVal_natDigits]

theorem natDigits_no_dot (n : Nat) : '.' ∉ natDigits n := by
  intro hmem
  have := natDigitsAux_all_digit (Nat.lt_succ_self n) '.' hmem
  simp [Char.isDigit] at this

theorem splitOn_render {segs : TaskId} (h : segs ≠ []) :
    (renderTaskId segs).data.splitOn '.' = segs.map natDigits := by
  have hdata : (renderTaskId segs).data = List.intercalate ['.'] (segs.map natDigits) := rfl
  rw [hdata]
  refine List.splitOn_intercalate _ '.' ?_ ?_
  · intro l hl
    obtain ⟨m, _, rfl⟩ := List.mem_map.mp hl
    exact natDigits_no_dot m
  · simp [h]

theorem parseSegs_map_natDigits : ∀ segs : TaskId, parseSegs (segs.map natDigits) = .ok segs := by
  intro segs
  induction segs with
  | nil => rfl
  | cons n ns ih =>
    rw [List.map_cons, parseSegs, parseSeg_natDigits n, ih]

theorem parseTaskId_render {segs : TaskId} (h : segs ≠ []) :
    parseTaskId (renderTaskId segs) = .ok segs := by
  rw [parseTaskId, splitOn_render h, parseSegs_map_natDigits]

theorem parseSegs_length : ∀ {l : List (List Char)} {r : List Nat},
    parseSegs l = .ok r → r.length = l.length := by
  intro l
  induction l with
  | nil =>
    intro r h
    rw [parseSegs] at h
    injection h with h
    subst h
    rfl
  | cons s rest ih =>
    intro r h
    rw [parseSegs] at h
    cases hps : parseSeg s with
    | error e => rw [hps] at h; exact absurd h (by simp)
    | ok n =>
      cases hrest : parseSegs rest with
      | error e => rw [hps, hrest] at h; exact absurd h (by simp)
      | ok ns =>
        rw [hps, hrest] at h
        injection h with h
        rw [← h, List.length_cons, List.length_cons, ih hrest]

theorem splitOn_ne_nil (s : String) : s.data.splitOn '.' ≠ [] := by
  rw [List.splitOn]
  exact List.splitOnP_ne_nil _ _

theorem parseTaskId_ok_ne_nil {s : String} {segs : TaskId}
    (h : parseTaskId s = .ok segs) : segs ≠ [] := by
  rw [parseTaskId] at h
  have hlen := parseSegs_length h
  intro hnil
  rw [hnil] at hlen
  exact splitOn_ne_nil s (List.length_eq_zero.mp hlen.symm)

theorem parseSeg_error_shape (cs : List Char) :
    parseSeg cs = .ok (segVal cs) ∨ parseSeg cs = .error .malformedIdentifier := by
  rw [parseSeg]
  by_cases h : validSeg cs
  · left; rw [if_pos h]
  · right; rw [if_neg h]

theorem parseSegs_error_of_bad : ∀ {l : List (List Char)},
    (∃ seg ∈ l, validSeg seg = false) → parseSegs l = .error .malformedIdentifier := by
  intro l
  induction l with
  | nil =>
    intro h
    obtain ⟨seg, hmem, _⟩ := h
    exact absurd hmem (List.not_mem_nil seg)
  | cons s rest ih =>
    intro h
    rw [parseSegs]
    by_cases hs : validSeg s
    · have hps : parseSeg s = .ok (segVal s) := by rw [parseSeg, if_pos hs]
      obtain ⟨seg, hmem, hbad⟩ := h
      rcases List.mem_cons.mp hmem with rfl | hmem2
      · rw [hs] at hbad; exact absurd hbad (by simp)
      · rw [hps, ih ⟨seg, hmem2, hbad⟩]
    · have hps : parseSeg s = .error .malformedIdentifier := by
        rw [parseSeg, if_neg hs]
      rw [hps]

/-! ## Persisted document model

Modelled from the spec: the per-tag persisted document has logical shape
an object with a `tasks` array of recursive Task objects; unknown fields
are preserved on round-trip to remain forward-compatible. -/

mutual
inductive Doc where
  | str (s : String)
  | num (n : Nat)
  | arr (elems : DocList)
  | obj (fields : Fields)
inductive DocList where
  | nil
  | cons (d : Doc) (ds : DocList)
inductive Fields where
  | nil
  | cons (key : String) (value : Doc) (rest : Fields)
end

deriving instance DecidableEq for Doc, DocList, Fields

/-! ## Tasks

Modelled from the spec data model: a task carries a hierarchical
identifier, free-text fields, a status, a priority, a set of dependency
identifiers, an ordered sequence of child subtasks, timestamps, and any
unknown document fields preserved for forward compatibility.  A
TaskCollection is an ordered sequence of top-level tasks.  (Named `TmTask`
because `Task` is taken by the Lean core library.) -/

mutual
inductive TmTask where
  | mk (id : TaskId) (title description details testStrategy : String)
      (status : Status) (priority : Priority)
      (dependencies : List TaskId) (subtasks : TmTasks)
      (createdAt updatedAt : Nat) (unknown : Fields) : TmTask
inductive TmTasks where
  | nil : TmTasks
  | cons (t : TmTask) (ts : TmTasks) : TmTasks
end

deriving instance DecidableEq for TmTask, TmTasks

def TmTask.id : TmTask → TaskId
  | .mk i _ _ _ _ _ _ _ _ _ _ _ => i

def TmTask.status : TmTask → Status
  | .mk _ _ _ _ _ st _ _ _ _ _ _ => st

def TmTask.priority : TmTask → Priority
  | .mk _ _ _ _ _ _ p _ _ _ _ _ => p

def TmTask.dependencies : TmTask → List TaskId
  | .mk _ _ _ _ _ _ _ dep _ _ _ _ => dep

def TmTask.subtasks : TmTask → TmTasks
  | .mk _ _ _ _ _ _ _ _ subs _ _ _ => subs

/-- Replace the status of a task, leaving every other field unchanged. -/
def TmTask.withStatus : TmTask → Status → TmTask
  | .mk i ttl dsc det tst _ p dep subs ca ua unk, st =>
    .mk i ttl dsc det tst st p dep subs ca ua unk

/-- Replace the subtasks of a task, leaving every other field unchanged. -/
def TmTask.withSubtasks : TmTask → TmTasks → TmTask
  | .mk i ttl dsc det tst st p dep _ ca ua unk, subs =>
    .mk i ttl dsc det tst st p dep subs ca ua unk

/-! ## Status and priority string forms -/

def statusStr : Status → String
  | .pending => "pending"
  | .inProgress => "in-progress"
  | .done => "done"
  | .deferred => "deferred"
  | .cancelled => "cancelled"
  | .blocked => "blocked"

def statusFromStr : String → Option Status
  | "pending" => some .pending
  | "in-progress" => some .inProgress
  | "done" => some .done
  | "deferred" => some .deferred
  | "cancelled" => some .cancelled
  | "blocked" => some .blocked
  | _ => none

def prioStr : Priority → String
  | .low => "low"
  | .medium => "medium"
  | .high => "high"
  | .critical => "critical"

def prioFromStr : String → Option Priority
  | "low" => some .low
  | "medium" => some .medium
  | "high" => some .high
  | "critical" => some .critical
  | _ => none

theorem statusFromStr_statusStr (st : Status) : statusFromStr (statusStr st) = some st := by
  cases st <;> rfl

theorem prioFromStr_prioStr (p : Priority) : prioFromStr (prioStr p) = some p := by
  cases p <;> rfl

/-! ## Serialization of the task tree

Modelled from the spec external-interface section: each task serializes to
an object with its known fields followed by any preserved unknown fields;
a collection serializes to an object with a single `tasks` array. -/

def depsToDocList : List TaskId → DocList
  | [] => .nil
  | d :: ds => .cons (.str (renderTaskId d)) (depsToDocList ds)

def parseDeps : DocList → Except TMErr (List TaskId)
  | .nil => .ok []
  | .cons (.str s) ds =>
    match parseTaskId s, parseDeps ds with
    | .ok d, .ok dv => .ok (d :: dv)
    | .error e, _ => .error e
    | _, .error e => .error e
  | .cons _ _ => .error .corruptDocument

mutual
def serializeTask : TmTask → Doc
  | .mk i ttl dsc det tst st p dep subs ca ua unk =>
    .obj (.cons "id" (.str (renderTaskId i))
      (.cons "title" (.str ttl)
      (.cons "description" (.str dsc)
      (.cons "details" (.str det)
      (.cons "testStrategy" (.str tst)
      (.cons "status" (.str (statusStr st))
      (.cons "priority" (.str (prioStr p))
      (.cons "dependencies" (.arr (depsToDocList dep))
      (.cons "subtasks" (.arr (serializeTasks subs))
      (.cons "createdAt" (.num ca)
      (.cons "updatedAt" (.num ua) unk)))))))))))
def serializeTasks : TmTasks → DocList
  | .nil => .nil
  | .cons t ts => .cons (serializeTask t) (serializeTasks ts)
end

/-- Combine the parsed components of a task object, failing if any failed. -/
def mkTaskResult (iv : Except TMErr TaskId) (ttl dsc det tst : String)
    (stv : Option Status) (pv : Option Priority) (depv : Except TMErr (List TaskId))
    (subv : Except TMErr TmTasks) (ca ua : Nat) (unk : Fields) : Except TMErr TmTask :=
  match iv, stv, pv, depv, subv with
  | .ok i, some st, some p, .ok dep, .ok subs =>
    .ok (.mk i ttl dsc det tst st p dep subs ca ua unk)
  | .error e, _, _, _, _ => .error e
  | _, _, _, _, _ => .error .corruptDocument

mutual
def parseTaskDoc : Doc → Except TMErr TmTask
  | .obj (.cons "id" (.str i)
      (.cons "title" (.str ttl)
      (.cons "description" (.str dsc)
      (.cons "details" (.str det)
      (.cons "testStrategy" (.str tst)
      (.cons "status" (.str st)
      (.cons "priority" (.str p)
      (.cons "dependencies" (.arr dep)
      (.cons "subtasks" (.arr subs)
      (.cons "createdAt" (.num ca)
      (.cons "updatedAt" (.num ua) unk))))))))))) =>
    mkTaskResult (parseTaskId i) ttl dsc det tst (statusFromStr st) (prioFromStr p)
      (parseDeps dep) (parseDocList subs) ca ua unk
  | _ => .error .corruptDocument
def parseDocList : DocList → Except TMErr TmTasks
  | .nil => .ok .nil
  | .cons d ds =>
    match parseTaskDoc d, parseDocList ds with
    | .ok t, .ok ts => .ok (.cons t ts)
    | .error e, _ => .error e
    | _, .error e => .error e
end

/-! Well-formedness from the spec data model: every identifier (of a task
or in a dependency list) is a non-empty segment sequence. -/
mutual
def wfTask : TmTask → Bool
  | .mk i _ _ _ _ _ _ dep subs _ _ _ =>
    !i.isEmpty && dep.all (fun d => !d.isEmpty) && wfTasks subs
def wfTasks : TmTasks → Bool
  | .nil => true
  | .cons t ts => wfTask t && wfTasks ts
end

/-! Nesting depth of a task tree: a task with no subtasks has depth 1. -/
mutual
def depthTask : TmTask → Nat
  | .mk _ _ _ _ _ _ _ _ subs _ _ _ => 1 + depthTasks subs
def depthTasks : TmTasks → Nat
  | .nil => 0
  | .cons t ts => max (depthTask t) (depthTasks ts)
end

theorem parseDeps_depsToDocList : ∀ {dep : List TaskId},
    dep.all (fun d => !d.isEmpty) = true → parseDeps (depsToDocList dep) = .ok dep := by
  intro dep
  induction dep with
  | nil => intro _; rfl
  | cons d ds ih =>
    intro h
    rw [List.all_cons, Bool.and_eq_true] at h
    have hd : d ≠ [] := by
      intro hnil
      rw [hnil] at h
      simp at h
    rw [depsToDocList, parseDeps, parseTaskId_render hd, ih h.2]

set_option maxHeartbeats 1000000 in
theorem parseTaskDoc_obj_eq (i ttl dsc det tst st p : String) (dep subs : DocList)
    (ca ua : Nat) (unk : Fields) :
    parseTaskDoc (.obj (.cons "id" (.str i)
      (.cons "title" (.str ttl)
      (.cons "description" (.str dsc)
      (.cons "details" (.str det)
      (.cons "testStrategy" (.str tst)
      (.cons "status" (.str st)
      (.cons "priority" (.str p)
      (.cons "dependencies" (.arr dep)
      (.cons "subtasks" (.arr subs)
      (.cons "createdAt" (.num ca)
      (.cons "updatedAt" (.num ua) unk)))))))))))) =
    mkTaskResult (parseTaskId i) ttl dsc det tst (statusFromStr st) (prioFromStr p)
      (parseDeps dep) (parseDocList subs) ca ua unk := rfl

set_option maxHeartbeats 1000000 in
mutual
theorem parse_serializeTask : ∀ t : TmTask, wfTask t = true →
    parseTaskDoc (serializeTask t) = .ok t
  | .mk i ttl dsc det tst st p dep subs ca ua unk => by
    intro h
    rw [wfTask, Bool.and_eq_true, Bool.and_eq_true] at h
    obtain ⟨⟨hi, hdep⟩, hsubs⟩ := h
    have hine : i ≠ [] := by
      intro hnil
      rw [hnil] at hi
      simp at hi
    simp only [serializeTask]
    rw [parseTaskDoc_obj_eq, parseTaskId_render hine, statusFromStr_statusStr,
      prioFromStr_prioStr, parseDeps_depsToDocList hdep, parse_serializeTasks subs hsubs]
    rfl
theorem parse_serializeTasks : ∀ ts : TmTasks, wfTasks ts = true →
    parseDocList (serializeTasks ts) = .ok ts
  | .nil => by intro _; rfl
  | .cons t ts => by
    intro h
    rw [wfTasks, Bool.and_eq_true] at h
    simp only [serializeTasks, parseDocList]
    rw [parse_serializeTask t h.1, parse_serializeTasks ts h.2]
end

/-! ## Storage engine

Modelled from the spec and from `FileStorage.SaveTasks` in the PRD:
`Save(tag, collection)` serializes, writes a temporary file in the same
directory, forces durability, then renames the temporary file over the
target path.  A file holds either a whole document or, after an
interrupted write, torn partial bytes. -/

/-- On-disk file content: a whole serialized document or torn partial bytes. -/
inductive Raw where
  | whole (d : Doc)
  | torn (bytes : String)
deriving DecidableEq

/-- The file system, as a map from paths to file contents. -/
def FsState := String → Option Raw

/-- Update one path of the file system. -/
def FsState.set (fs : FsState) (p : String) (v : Option Raw) : FsState :=
  fun q => if q = p then v else fs q

/-- Target path of a tag's persisted document. -/
def docPath (tag : String) : String := "tasks/" ++ tag ++ ".json"

/-- Temporary path used by the atomic write sequence. -/
def tmpPath (tag : String) : String := docPath tag ++ ".tmp"

/-- Serialize a collection to its persisted document. -/
def serializeColl (c : TmTasks) : Doc := .obj (.cons "tasks" (.arr (serializeTasks c)) .nil)

/-- `Load(tag)`: read and deserialize the tag's persisted document, failing
with `CorruptDocument` on malformed content and `NotFound` when the tag has
no document. -/
def loadTasks (fs : FsState) (tag : String) : Except TMErr TmTasks :=
  match fs (docPath tag) with
  | none => .error .notFound
  | some (.torn _) => .error .corruptDocument
  | some (.whole d) =>
    match d with
    | .obj (.cons "tasks" (.arr ds) .nil) => parseDocList ds
    | _ => .error .corruptDocument

/-- Where the atomic write sequence stops: it either completes, or fails at
the temp-file write, the durability flush, or the rename. -/
inductive SaveStep where
  | ok
  | failTempWrite
  | failFsync
  | failRename
deriving DecidableEq

/-- `Save(tag, collection)`: serialize, write the temporary file, flush, then
rename over the target.  A failure at any step leaves the target path
untouched; only the temporary path may hold partial bytes. -/
def saveTasks (fs : FsState) (tag : String) (c : TmTasks) (step : SaveStep)
    (tornBytes : String) : Except TMErr Unit × FsState :=
  match step with
  | .failTempWrite => (.error .writeFailure, fs.set (tmpPath tag) (some (.torn tornBytes)))
  | .failFsync => (.error .writeFailure, fs.set (tmpPath tag) (some (.whole (serializeColl c))))
  | .failRename => (.error .writeFailure, fs.set (tmpPath tag) (some (.whole (serializeColl c))))
  | .ok => (.ok (), (fs.set (tmpPath tag) none).set (docPath tag) (some (.whole (serializeColl c))))

theorem tmpPath_ne_docPath (tag : String) : tmpPath tag ≠ docPath tag := by
  intro h
  have hlen := congrArg String.length h
  rw [tmpPath, String.length_append] at hlen
  have h4 : (".tmp" : String).length = 4 := by decide
  omega

theorem loadTasks_set_tmp (fs : FsState) (tag : String) (v : Option Raw) :
    loadTasks (fs.set (tmpPath tag) v) tag = loadTasks fs tag := by
  rw [loadTasks, loadTasks, FsState.set, if_neg (tmpPath_ne_docPath tag).symm]

/-! ## Identifier resolution

Modelled from the spec: resolve an identifier against a collection by
taking the top-level task at the first segment's 1-based position, then
descending into `subtasks` by each subsequent segment; fails with
`NotFound` when any segment is out of range. -/

/-- The task at a 0-based position of a collection. -/
def TmTasks.getAt : TmTasks → Nat → Option TmTask
  | .nil, _ => none
  | .cons t _, 0 => some t
  | .cons _ ts, n + 1 => ts.getAt n

/-- Apply a function to the task at a 0-based position of a collection. -/
def TmTasks.modAt : TmTasks → Nat → (TmTask → TmTask) → TmTasks
  | .nil, _, _ => .nil
  | .cons t ts, 0, f => .cons (f t) ts
  | .cons t ts, n + 1, f => .cons t (ts.modAt n f)

/-- Resolve a parsed identifier to a task in the collection. -/
def resolveT : TmTasks → TaskId → Except TMErr TmTask
  | _, [] => .error .notFound
  | _, 0 :: _ => .error .notFound
  | ts, (k + 1) :: rest =>
    match ts.getAt k with
    | none => .error .notFound
    | some t =>
      match rest with
      | [] => .ok t
      | r :: rs => resolveT t.subtasks (r :: rs)

/-- Set the status of the task the identifier resolves to. -/
def updStatus : TmTasks → TaskId → Status → TmTasks
  | ts, [], _ => ts
  | ts, 0 :: _, _ => ts
  | ts, (k + 1) :: [], st => ts.modAt k (fun t => t.withStatus st)
  | ts, (k + 1) :: (r :: rs), st =>
    ts.modAt k (fun t => t.withSubtasks (updStatus t.subtasks (r :: rs) st))

theorem getAt_modAt : ∀ (ts : TmTasks) (n : Nat) (f : TmTask → TmTask),
    (ts.modAt n f).getAt n = (ts.getAt n).map f
  | .nil, n, f => by cases n <;> rfl
  | .cons t ts, 0, f => rfl
  | .cons t ts, n + 1, f => by
    rw [TmTasks.modAt, TmTasks.getAt, TmTasks.getAt, getAt_modAt ts n f]

theorem subtasks_withStatus (t : TmTask) (st : Status) : (t.withStatus st).subtasks = t.subtasks := by
  cases t
  rfl

theorem status_withStatus (t : TmTask) (st : Status) : (t.withStatus st).status = st := by
  cases t
  rfl

theorem subtasks_withSubtasks (t : TmTask) (s : TmTasks) : (t.withSubtasks s).subtasks = s := by
  cases t
  rfl

theorem resolveT_updStatus : ∀ (id : TaskId) (ts : TmTasks) (st : Status) (t : TmTask),
    resolveT ts id = .ok t → resolveT (updStatus ts id st) id = .ok (t.withStatus st) := by
  intro id
  induction id with
  | nil => intro ts st t h; exact absurd h (by rw [resolveT]; simp)
  | cons k rest ih =>
    intro ts st t h
    cases k with
    | zero => exact absurd h (by rw [resolveT]; simp)
    | succ k =>
      rw [resolveT] at h
      cases hget : ts.getAt k with
      | none => rw [hget] at h; exact absurd h (by simp)
      | some t0 =>
        rw [hget] at h
        cases rest with
        | nil =>
          injection h with h
          subst h
          rw [updStatus, resolveT]
          have hm : (ts.modAt k (fun x => x.withStatus st)).getAt k = some (t0.withStatus st) := by
            rw [getAt_modAt, hget]
            rfl
          rw [hm]
        | cons r rs =>
          have hsub : resolveT t0.subtasks (r :: rs) = .ok t := h
          rw [updStatus, resolveT]
          have hm : (ts.modAt k
                (fun x => x.withSubtasks (updStatus x.subtasks (r :: rs) st))).getAt k
              = some (t0.withSubtasks (updStatus t0.subtasks (r :: rs) st)) := by
            rw [getAt_modAt, hget]
            rfl
          rw [hm]
          show resolveT (t0.withSubtasks (updStatus t0.subtasks (r :: rs) st)).subtasks (r :: rs)
            = .ok (t.withStatus st)
          rw [subtasks_withSubtasks]
          exact ih t0.subtasks st t hsub

/-! ## Status machine

Modelled from the spec: all transitions are permitted except that a task
cannot be set to `done` while any dependency is not `done`; that fails with
`DependencyNotSatisfied` unless the override flag is passed, in which case
the transition proceeds and the unmet dependencies are flagged in the
result. -/

/-- Whether an identifier resolves to a task whose status is `done`. -/
def depDone (c : TmTasks) (d : TaskId) : Bool :=
  match resolveT c d with
  | .ok t => match t.status with
    | .done => true
    | _ => false
  | .error _ => false

/-- The dependencies of a task that are not satisfied. -/
def unmetDeps (c : TmTasks) (t : TmTask) : List TaskId :=
  t.dependencies.filter (fun d => !depDone c d)

/-- The dependency gate of `setStatus`, applied once the target resolves:
setting to `done` with unmet dependencies fails with
`DependencyNotSatisfied` unless the override flag is passed. -/
def setStatusCheck (c : TmTasks) (id : TaskId) (st : Status) (override : Bool)
    (unmet : List TaskId) : Except TMErr (TmTasks × List TaskId) :=
  match st with
  | .done =>
    match unmet with
    | [] => .ok (updStatus c id st, [])
    | u :: us =>
      if override then .ok (updStatus c id st, u :: us) else .error .dependencyNotSatisfied
  | _ => .ok (updStatus c id st, [])

/-- `setStatus(id, status, override?)`. -/
def setStatusOp (c : TmTasks) (id : TaskId) (st : Status) (override : Bool) :
    Except TMErr (TmTasks × List TaskId) :=
  match resolveT c id with
  | .error e => .error e
  | .ok t => setStatusCheck c id st override (unmetDeps c t)

/-- Run `setStatus` against a collection: on error the collection is kept
unchanged. -/
def setStatusRun (c : TmTasks) (id : TaskId) (st : Status) (override : Bool) :
    TmTasks × Except TMErr (List TaskId) :=
  match setStatusOp c id st override with
  | .ok (c2, u) => (c2, .ok u)
  | .error e => (c, .error e)

/-! ## Next-task selection

Modelled from the spec: among tasks whose status is `pending` and whose
dependencies all resolve to `done` tasks, select by highest priority, then
fewest not-yet-done dependents, then lowest identifier in lexicographic
integer-sequence order. -/

def prioRank : Priority → Nat
  | .critical => 3
  | .high => 2
  | .medium => 1
  | .low => 0

mutual
def flattenTask : TmTask → List TmTask
  | .mk i ttl dsc det tst st p dep subs ca ua unk =>
    .mk i ttl dsc det tst st p dep subs ca ua unk :: flattenTasks subs
def flattenTasks : TmTasks → List TmTask
  | .nil => []
  | .cons t ts => flattenTask t ++ flattenTasks ts
end

def isDoneB (t : TmTask) : Bool :=
  match t.status with
  | .done => true
  | _ => false

def isPendingB (t : TmTask) : Bool :=
  match t.status with
  | .pending => true
  | _ => false

/-- Eligibility: status `pending` and every dependency resolves to a `done` task. -/
def eligibleB (c : TmTasks) (t : TmTask) : Bool :=
  isPendingB t && t.dependencies.all (depDone c)

/-- Number of tasks that depend on `t` and are not yet `done`. -/
def dependentsNotDone (c : TmTasks) (t : TmTask) : Nat :=
  ((flattenTasks c).filter (fun u => decide (t.id ∈ u.dependencies) && !isDoneB u)).length

/-- Selection key, ordered lexicographically: priority rank (inverted so
that smaller is better), then unresolved-dependent count, then identifier. -/
def selKey (c : TmTasks) (t : TmTask) : Nat ×ₗ (Nat ×ₗ TaskId) :=
  toLex (3 - prioRank t.priority, toLex (dependentsNotDone c t, t.id))

/-- `getNextTask()`: the eligible task minimal under the selection order,
or none when no task is eligible. -/
def getNextTask (c : TmTasks) : Option TmTask :=
  ((flattenTasks c).filter (eligibleB c)).argmin (selKey c)

theorem selKey_eq_id {c : TmTasks} {t u : TmTask} (h : selKey c t = selKey c u) :
    t.id = u.id := by
  rw [selKey, selKey] at h
  have h1 := congrArg (fun k : Nat ×ₗ (Nat ×ₗ TaskId) => (ofLex ((ofLex k).2)).2) h
  exact h1

/-! ## Dependency graph, validation and repair

Modelled from the spec: nodes are all identifiers reachable in the
collection, edges run from dependent to prerequisite; cycle detection uses
a depth-first walk; `AutoFix` removes the most recently added edge on each
detected cycle and re-validates, failing with `UnresolvableCycle` when the
iteration bound is reached; missing references are fixed by deleting the
dangling edge. -/

def edgesOf (c : TmTasks) : List (TaskId × TaskId) :=
  (flattenTasks c).foldr (fun t acc => (t.dependencies.map (fun d => (t.id, d))) ++ acc) []

def nodesOf (c : TmTasks) : List TaskId := (flattenTasks c).map TmTask.id

def succs (es : List (TaskId × TaskId)) (u : TaskId) : List TaskId :=
  (es.filter (fun e => decide (e.1 = u))).map Prod.snd

def firstSome {α β : Type} : List α → (α → Option β) → Option β
  | [], _ => none
  | x :: xs, f =>
    match f x with
    | some b => some b
    | none => firstSome xs f

/-- Fueled depth-first search: returns the portion of the current walk
stack that closes a cycle, if one is found. -/
def dfsFind (es : List (TaskId × TaskId)) : Nat → List TaskId → TaskId → Option (List TaskId)
  | 0, _, _ => none
  | fuel + 1, path, u =>
    if u ∈ path then some (path.dropWhile (fun v => decide (v ≠ u)))
    else firstSome (succs es u) (fun v => dfsFind es fuel (path ++ [u]) v)

/-- All cycles found by the depth-first walk, one starting point at a time. -/
def cyclesOf (c : TmTasks) : List (List TaskId) :=
  (nodesOf c).filterMap (fun u => dfsFind (edgesOf c) ((nodesOf c).length + 1) [] u)

/-- Validation errors, in report order. -/
inductive VErr where
  | missingRef (taskId dep : TaskId)
  | selfDep (taskId : TaskId)
  | cyc (ids : List TaskId)
deriving DecidableEq

def VErr.isCycle : VErr → Bool
  | .cyc _ => true
  | _ => false

/-- `Validate()`: missing references, then self dependencies, then cycles. -/
def validateDeps (c : TmTasks) : List VErr :=
  ((edgesOf c).filterMap
    (fun e => if e.2 ∈ nodesOf c then none else some (.missingRef e.1 e.2)))
  ++ ((edgesOf c).filterMap (fun e => if e.1 = e.2 then some (.selfDep e.1) else none))
  ++ (cyclesOf c).map .cyc

mutual
def remDepTask (a b : TaskId) : TmTask → TmTask
  | .mk i ttl dsc det tst st p dep subs ca ua unk =>
    .mk i ttl dsc det tst st p
      (if i = a then dep.filter (fun d => decide (d ≠ b)) else dep)
      (remDepTasks a b subs) ca ua unk
def remDepTasks (a b : TaskId) : TmTasks → TmTasks
  | .nil => .nil
  | .cons t ts => .cons (remDepTask a b t) (remDepTasks a b ts)
end

/-- The directed edges along a cycle, including the closing edge. -/
def cycEdges (cyc : List TaskId) : List (TaskId × TaskId) :=
  cyc.zip (cyc.drop 1 ++ cyc.take 1)

/-- The edge of the cycle to drop: the most recently added, i.e. the last
one in edge-insertion order. -/
def pickEdge (c : TmTasks) (cyc : List TaskId) : Option (TaskId × TaskId) :=
  ((edgesOf c).filter (fun e => decide (e ∈ cycEdges cyc))).getLast?

def autoFixLoop : Nat → TmTasks → List (TaskId × TaskId) →
    Except TMErr (TmTasks × List (TaskId × TaskId))
  | 0, c, removed =>
    match cyclesOf c with
    | [] => .ok (c, removed)
    | _ :: _ => .error .unresolvableCycle
  | fuel + 1, c, removed =>
    match cyclesOf c with
    | [] => .ok (c, removed)
    | cyc :: _ =>
      match pickEdge c cyc with
      | none => .error .unresolvableCycle
      | some e => autoFixLoop fuel (remDepTasks e.1 e.2 c) (removed ++ [e])

def danglingEdges (c : TmTasks) : List (TaskId × TaskId) :=
  (edgesOf c).filter (fun e => decide (e.2 ∉ nodesOf c))

def removeDangling (c : TmTasks) : TmTasks :=
  (danglingEdges c).foldl (fun acc e => remDepTasks e.1 e.2 acc) c

/-- `AutoFix()` / `FixDependencies`: delete dangling edges, then repeatedly
remove one edge per detected cycle up to a fixed iteration bound. -/
def autoFix (c : TmTasks) : Except TMErr (TmTasks × List (TaskId × TaskId)) :=
  autoFixLoop ((edgesOf c).length + 1) (removeDangling c) (danglingEdges c)

theorem autoFixLoop_ok : ∀ (fuel : Nat) (c : TmTasks) (removed : List (TaskId × TaskId))
    (c2 : TmTasks) (r : List (TaskId × TaskId)),
    autoFixLoop fuel c removed = .ok (c2, r) → cyclesOf c2 = [] := by
  intro fuel
  induction fuel with
  | zero =>
    intro c removed c2 r h
    rw [autoFixLoop] at h
    cases hcy : cyclesOf c with
    | nil =>
      rw [hcy] at h
      injection h with h
      have hc : c = c2 := congrArg Prod.fst h
      rw [← hc]
      exact hcy
    | cons x xs =>
      rw [hcy] at h
      exact absurd h (by simp)
  | succ fuel ih =>
    intro c removed c2 r h
    rw [autoFixLoop] at h
    cases hcy : cyclesOf c with
    | nil =>
      rw [hcy] at h
      injection h with h
      have hc : c = c2 := congrArg Prod.fst h
      rw [← hc]
      exact hcy
    | cons cyc rest =>
      rw [hcy] at h
      have h2 : (match pickEdge c cyc with
          | none => (.error .unresolvableCycle : Except TMErr (TmTasks × List (TaskId × TaskId)))
          | some e => autoFixLoop fuel (remDepTasks e.1 e.2 c) (removed ++ [e])) = .ok (c2, r) := h
      cases hp : pickEdge c cyc with
      | none => rw [hp] at h2; exact absurd h2 (by simp)
      | some e =>
        rw [hp] at h2
        exact ih _ _ _ _ h2

theorem autoFixLoop_error : ∀ (fuel : Nat) (c : TmTasks) (removed : List (TaskId × TaskId))
    (e : TMErr), autoFixLoop fuel c removed = .error e → e = .unresolvableCycle := by
  intro fuel
  induction fuel with
  | zero =>
    intro c removed e h
    rw [autoFixLoop] at h
    cases hcy : cyclesOf c with
    | nil => rw [hcy] at h; exact absurd h (by simp)
    | cons x xs =>
      rw [hcy] at h
      injection h with h
      exact h.symm
  | succ fuel ih =>
    intro c removed e h
    rw [autoFixLoop] at h
    cases hcy : cyclesOf c with
    | nil => rw [hcy] at h; exact absurd h (by simp)
    | cons cyc rest =>
      rw [hcy] at h
      have h2 : (match pickEdge c cyc with
          | none => (.error .unresolvableCycle : Except TMErr (TmTasks × List (TaskId × TaskId)))
          | some e2 => autoFixLoop fuel (remDepTasks e2.1 e2.2 c) (removed ++ [e2])) = .error e := h
      cases hp : pickEdge c cyc with
      | none =>
        rw [hp] at h2
        injection h2 with h2
        exact h2.symm
      | some edge =>
        rw [hp] at h2
        exact ih _ _ _ h2

theorem validateDeps_no_cycle {c : TmTasks} (h : cyclesOf c = []) :
    ∀ v ∈ validateDeps c, v.isCycle = false := by
  intro v hv
  rw [validateDeps, h, List.map_nil, List.append_nil] at hv
  rcases List.mem_append.mp hv with hm | hm
  · obtain ⟨e, _, heq⟩ := List.mem_filterMap.mp hm
    by_cases hc : e.2 ∈ nodesOf c
    · rw [if_pos hc] at heq
      exact absurd heq (by simp)
    · rw [if_neg hc] at heq
      injection heq with heq
      rw [← heq]
      rfl
  · obtain ⟨e, _, heq⟩ := List.mem_filterMap.mp hm
    by_cases hc : e.1 = e.2
    · rw [if_pos hc] at heq
      injection heq with heq
      rw [← heq]
      rfl
    · rw [if_neg hc] at heq
      exact absurd heq (by simp)

/-! ## Remaining core operations -/

def TmTasks.append : TmTasks → TmTask → TmTasks
  | .nil, t => .cons t .nil
  | .cons x ts, t => .cons x (ts.append t)

def TmTasks.removeAt : TmTasks → Nat → TmTasks
  | .nil, _ => .nil
  | .cons _ ts, 0 => ts
  | .cons t ts, n + 1 => .cons t (ts.removeAt n)

/-- Remove the task the identifier resolves to. -/
def removeTaskId : TmTasks → TaskId → TmTasks
  | ts, [] => ts
  | ts, 0 :: _ => ts
  | ts, (k + 1) :: [] => ts.removeAt k
  | ts, (k + 1) :: (r :: rs) =>
    ts.modAt k (fun t => t.withSubtasks (removeTaskId t.subtasks (r :: rs)))

mutual
def addDepTask (a b : TaskId) : TmTask → TmTask
  | .mk i ttl dsc det tst st p dep subs ca ua unk =>
    .mk i ttl dsc det tst st p
      (if i = a then (if b ∈ dep then dep else dep ++ [b]) else dep)
      (addDepTasks a b subs) ca ua unk
def addDepTasks (a b : TaskId) : TmTasks → TmTasks
  | .nil => .nil
  | .cons t ts => .cons (addDepTask a b t) (addDepTasks a b ts)
end

/-- `AddDependency(taskID, dependsOn)`: fails with `SelfDependency` when the
identifiers are equal, with `NotFound` when either does not resolve, and
otherwise inserts the edge idempotently. -/
def addDependency (c : TmTasks) (a b : TaskId) : Except TMErr TmTasks :=
  if a = b then .error .selfDependency
  else
    match resolveT c a, resolveT c b with
    | .ok _, .ok _ => .ok (addDepTasks a b c)
    | _, _ => .error .notFound

/-- `RemoveDependency(taskID, dependsOn)`: idempotent removal. -/
def removeDependency (c : TmTasks) (a b : TaskId) : TmTasks := remDepTasks a b c

/-! ## Mode controller

Modelled from the spec: two operating policies.  The always-consistent
policy reads the config document fresh on every operation; the cached
policy serves the config from a process cache when present, and the cache
is invalidated synchronously after any config write.  `mode` absent or
unrecognized selects the always-consistent policy. -/

structure Config where
  currentTag : String
  mainModel : String
  researchModel : String
  fallbackModel : String
  mode : Option String
deriving DecidableEq

inductive Mode where
  | standard
  | solo
deriving DecidableEq

/-- Select the operating policy from the config `mode` value. -/
def parseMode : Option String → Mode
  | some s => if s = "solo" then .solo else .standard
  | none => .standard

structure CoreState where
  fsS : FsState
  cfgDisk : Config
  cache : Option Config

/-- The operations the core exposes to external collaborators. -/
inductive Op where
  | listTasks (f : Option Status)
  | getTask (id : TaskId)
  | getNext
  | setStatus (id : TaskId) (st : Status) (override : Bool)
  | addTask (t : TmTask)
  | removeTask (id : TaskId)
  | addDep (a b : TaskId)
  | removeDep (a b : TaskId)
  | validate
  | fixDeps
  | loadConfig
  | saveConfig (cfg : Config)

inductive OpResult where
  | errR (e : TMErr)
  | listR (ts : List TmTask)
  | taskR (t : TmTask)
  | nextR (o : Option TmTask)
  | statusR (c : TmTasks) (unmet : List TaskId)
  | collR (c : TmTasks)
  | fixR (c : TmTasks) (removed : List (TaskId × TaskId))
  | validR (vs : List VErr)
  | cfgR (cfg : Config)
  | okR
deriving DecidableEq

def matchesFilter (f : Option Status) (t : TmTask) : Bool :=
  match f with
  | none => true
  | some s => decide (t.status = s)

/-- Persist a collection through the atomic write sequence. -/
def saveColl (fs : FsState) (tag : String) (c : TmTasks) : FsState :=
  (saveTasks fs tag c .ok "").2

/-- One core operation, given the config in effect: returns its result, the
updated task store, and the new config document when the operation wrote
it.  This function never consults the config cache. -/
def runCore (cfg : Config) (fs : FsState) : Op → OpResult × FsState × Option Config
  | .listTasks f =>
    match loadTasks fs cfg.currentTag with
    | .error e => (.errR e, fs, none)
    | .ok c => (.listR ((flattenTasks c).filter (matchesFilter f)), fs, none)
  | .getTask id =>
    match loadTasks fs cfg.currentTag with
    | .error e => (.errR e, fs, none)
    | .ok c =>
      match resolveT c id with
      | .ok t => (.taskR t, fs, none)
      | .error e => (.errR e, fs, none)
  | .getNext =>
    match loadTasks fs cfg.currentTag with
    | .error e => (.errR e, fs, none)
    | .ok c => (.nextR (getNextTask c), fs, none)
  | .setStatus id st ov =>
    match loadTasks fs cfg.currentTag with
    | .error e => (.errR e, fs, none)
    | .ok c =>
      match setStatusOp c id st ov with
      | .ok (c2, u) => (.statusR c2 u, saveColl fs cfg.currentTag c2, none)
      | .error e => (.errR e, fs, none)
  | .addTask t =>
    match loadTasks fs cfg.currentTag with
    | .error e => (.errR e, fs, none)
    | .ok c => (.collR (c.append t), saveColl fs cfg.currentTag (c.append t), none)
  | .removeTask id =>
    match loadTasks fs cfg.currentTag with
    | .error e => (.errR e, fs, none)
    | .ok c =>
      match resolveT c id with
      | .ok _ => (.collR (removeTaskId c id), saveColl fs cfg.currentTag (removeTaskId c id), none)
      | .error e => (.errR e, fs, none)
  | .addDep a b =>
    match loadTasks fs cfg.currentTag with
    | .error e => (.errR e, fs, none)
    | .ok c =>
      match addDependency c a b with
      | .ok c2 => (.collR c2, saveColl fs cfg.currentTag c2, none)
      | .error e => (.errR e, fs, none)
  | .removeDep a b =>
    match loadTasks fs cfg.currentTag with
    | .error e => (.errR e, fs, none)
    | .ok c => (.collR (removeDependency c a b), saveColl fs cfg.currentTag (removeDependency c a b), none)
  | .validate =>
    match loadTasks fs cfg.currentTag with
    | .error e => (.errR e, fs, none)
    | .ok c => (.validR (validateDeps c), fs, none)
  | .fixDeps =>
    match loadTasks fs cfg.currentTag with
    | .error e => (.errR e, fs, none)
    | .ok c =>
      match autoFix c with
      | .ok (c2, rem) => (.fixR c2 rem, saveColl fs cfg.currentTag c2, none)
      | .error e => (.errR e, fs, none)
  | .loadConfig => (.cfgR cfg, fs, none)
  | .saveConfig nc => (.okR, fs, some nc)

/-- The config an operation sees under a policy: the always-consistent
policy reads the config document, the cached policy serves the cache when
present. -/
def cfgUnder : Mode → CoreState → Config
  | .standard, st => st.cfgDisk
  | .solo, st => st.cache.getD st.cfgDisk

/-- The cache contents after the config read of one operation. -/
def cacheAfterRead : Mode → CoreState → Option Config
  | .standard, st => st.cache
  | .solo, st => some (cfgUnder .solo st)

/-- Run one operation under a policy.  A config write invalidates the cache
synchronously. -/
def runOp (m : Mode) (st : CoreState) (op : Op) : OpResult × CoreState :=
  match runCore (cfgUnder m st) st.fsS op with
  | (r, fs2, none) => (r, ⟨fs2, st.cfgDisk, cacheAfterRead m st⟩)
  | (r, fs2, some nc) => (r, ⟨fs2, nc, none⟩)

/-- Cache coherence: an entry, when present, matches the config document. -/
def cacheOk (st : CoreState) : Prop :=
  st.cache = none ∨ st.cache = some st.cfgDisk

theorem cfgUnder_solo_eq {st : CoreState} (h : cacheOk st) :
    cfgUnder .solo st = cfgUnder .standard st := by
  rcases h with h | h <;> rw [cfgUnder, cfgUnder, h] <;> rfl

theorem runOp_result_eq (st : CoreState) (op : Op) (h : cacheOk st) :
    (runOp .solo st op).1 = (runOp .standard st op).1 := by
  rw [runOp, runOp, cfgUnder_solo_eq h]
  rcases runCore (cfgUnder .standard st) st.fsS op with ⟨r, fs2, u⟩
  cases u <;> rfl

theorem runOp_cacheOk (m : Mode) (st : CoreState) (op : Op) (h : cacheOk st) :
    cacheOk (runOp m st op).2 := by
  rw [runOp]
  rcases runCore (cfgUnder m st) st.fsS op with ⟨r, fs2, u⟩
  cases u with
  | none =>
    cases m with
    | standard => exact h
    | solo =>
      right
      show some (cfgUnder .solo st) = some st.cfgDisk
      rw [cfgUnder_solo_eq h]
      rfl
  | some nc => left; rfl

/-! ## Installer scripts

Embedded from `scripts/install-bun-binary.js` (the live installer) and from
the installer copy at the end of `.taskmaster/docs/prd-port.md`.  The
environment captures the platform, `PATH` entries, `HOME`, the file
existence and writability oracles, the result of `which task-master`, and
the user's answer to the confirmation prompt. -/

/-- ASCII lowercasing of one character, as `toLowerCase` acts on the
answers this script compares. -/
def lowerCh (ch : Char) : Char :=
  if 'A' ≤ ch ∧ ch ≤ 'Z' then Char.ofNat (ch.toNat + 32) else ch

def jsToLowerCase (s : String) : String := String.mk (s.data.map lowerCh)

/-- `path.dirname` on POSIX-style paths. -/
def dirnameJs (p : String) : String :=
  match (p.splitOn "/").dropLast with
  | [] => "."
  | [""] => "/"
  | parts => String.intercalate "/" parts

structure InstallEnv where
  platform : String
  pathDirs : List String
  home : String
  appdata : String
  fsExists : String → Bool
  writable : String → Bool
  whichTaskMaster : Option String
  binaryBuilt : Bool
  buildOk : Bool
  answer : String

/-- A candidate directory qualifies when it is in `PATH` and exists. -/
def candPass (env : InstallEnv) (d : String) : Bool :=
  decide (d ∈ env.pathDirs) && env.fsExists d

/-- Candidate install directories of `scripts/install-bun-binary.js`, in
its order. -/
def srcCandidates (env : InstallEnv) : List String :=
  ["/opt/homebrew/bin", "/usr/local/bin", env.home ++ "/.local/bin"]

/-- Candidate install directories of the installer copy embedded in the
PRD document, in its order. -/
def prdCandidates (env : InstallEnv) : List String :=
  ["/usr/local/bin", env.home ++ "/.local/bin", "/opt/homebrew/bin"]

def pickCandidate (env : InstallEnv) (cands : List String) : String :=
  match cands.filter (candPass env) with
  | [] => "/usr/local/bin"
  | d :: _ => d

/-- The `which task-master` lookup as the script sees it: a thrown error or
an empty trimmed result both leave the directory undetermined. -/
def whichEffective (env : InstallEnv) : Option String :=
  match env.whichTaskMaster with
  | some p => if p = "" then none else some p
  | none => none

/-- Installation directory computed by `scripts/install-bun-binary.js`
(lines 49-85): the directory of an existing `task-master` when one is
found, else the first qualifying candidate, else `/usr/local/bin`. -/
def installDirSrc (env : InstallEnv) : Option String :=
  if env.platform = "darwin" ∨ env.platform = "linux" then
    match whichEffective env with
    | some p => some (dirnameJs p)
    | none => some (pickCandidate env (srcCandidates env))
  else if env.platform = "win32" then some (env.appdata ++ "/npm")
  else none

/-- Installation directory computed by the installer copy embedded in the
PRD document (lines 1274-1297): no `which` lookup, and a different
candidate order. -/
def installDirPrd (env : InstallEnv) : Option String :=
  if env.platform = "darwin" ∨ env.platform = "linux" then
    some (pickCandidate env (prdCandidates env))
  else if env.platform = "win32" then some (env.appdata ++ "/npm")
  else none

/-- The file-system mutations the installer can perform on the
installation directory. -/
inductive FsAction where
  | renameFile (src dst : String)
  | copyFile (src dst : String)
  | chmodFile (p : String)
deriving DecidableEq

inductive MainOutcome where
  | exited (code : Nat)
  | cancelled
  | installed (dir : String) (acts : List FsAction)
deriving DecidableEq

/-- `main()` of `scripts/install-bun-binary.js`: build the binary if
missing (exiting on failure), determine the installation directory
(exiting on unsupported platforms), prompt for confirmation, and only on a
lowercased answer of exactly `"y"` back up the existing `task-master`,
copy the binary over it and make it executable. -/
def installerConfirm (env : InstallEnv) (dir : String) : MainOutcome :=
  if jsToLowerCase env.answer ≠ "y" then .cancelled
  else
    .installed dir
      ((if env.fsExists (dir ++ "/task-master")
        then [.renameFile (dir ++ "/task-master") (dir ++ "/task-master.node")]
        else [])
       ++ [.copyFile "dist/bin/task-master-bun" (dir ++ "/task-master"),
           .chmodFile (dir ++ "/task-master")])

def installerMain (env : InstallEnv) : MainOutcome :=
  if !env.binaryBuilt && !env.buildOk then .exited 1
  else
    match installDirSrc env with
    | none => .exited 1
    | some dir => installerConfirm env dir

/-- The mutations an outcome performed. -/
def actionsOf : MainOutcome → List FsAction
  | .installed _ acts => acts
  | _ => []

deriving instance DecidableEq for Except

/-! ## Concrete fixtures used by the claim witnesses -/

def cCyc : TmTasks :=
  .cons (.mk [1] "" "" "" "" .pending .medium [[2]] .nil 0 0 .nil)
    (.cons (.mk [2] "" "" "" "" .pending .medium [[1]] .nil 0 0 .nil) .nil)

def cFixed : TmTasks :=
  .cons (.mk [1] "" "" "" "" .pending .medium [[2]] .nil 0 0 .nil)
    (.cons (.mk [2] "" "" "" "" .pending .medium [] .nil 0 0 .nil) .nil)

def s2Scen : TmTask := .mk [2] "" "" "" "" .pending .medium [[1]] .nil 0 0 .nil

def cScen : TmTasks :=
  .cons (.mk [1] "" "" "" "" .pending .medium [] .nil 0 0 .nil) (.cons s2Scen .nil)

def cDepth3 : TmTasks :=
  .cons (.mk [1] "a" "b" "c" "d" .pending .high [[2]]
    (.cons (.mk [1, 1] "s" "" "" "" .inProgress .low []
      (.cons (.mk [1, 1, 1] "deep" "" "" "" .done .critical [[1]] .nil 5 6
        (.cons "custom" (.num 9) .nil)) .nil) 3 4 .nil) .nil) 1 2
    (.cons "extra" (.str "kept") .nil))
    (.cons (.mk [2] "" "" "" "" .blocked .medium [] .nil 0 0 .nil) .nil)

def cfgEx : Config := ⟨"master", "main-model", "research-model", "fallback-model", none⟩

def stEx : CoreState := ⟨fun _ => none, cfgEx, some cfgEx⟩

def envC9 : InstallEnv :=
  ⟨"linux", ["/usr/local/bin"], "/root", "", fun _ => true, fun _ => true, none, true, true, "N"⟩

def envDiv : InstallEnv :=
  ⟨"linux", ["/opt/homebrew/bin", "/usr/local/bin"], "/root", "",
    fun d => d == "/opt/homebrew/bin" || d == "/usr/local/bin", fun _ => true,
    none, true, true, "y"⟩

def envAgree : InstallEnv :=
  ⟨"darwin", ["/usr/local/bin"], "/home/u", "", fun _ => true, fun _ => true, none, true, true, "y"⟩

/-! ## Claim theorems -/

/-- C1: for every tag and collection, when `Save` fails at any step of its
sequence (temp-file write, durability flush, or rename) it reports
`WriteFailure`, the previously persisted document for that tag is
unchanged, and a subsequent `Load` returns exactly what a `Load` before
the failed save would have returned: a reader never observes a
partially-written document. -/
theorem saveFailurePreservesDocument (fs : FsState) (tag : String) (c : TmTasks)
    (step : SaveStep) (bytes : String) (h : step ≠ .ok) :
    (saveTasks fs tag c step bytes).1 = .error .writeFailure ∧
    loadTasks (saveTasks fs tag c step bytes).2 tag = loadTasks fs tag := by
  cases step with
  | ok => exact absurd rfl h
  | failTempWrite => exact ⟨rfl, loadTasks_set_tmp fs tag _⟩
  | failFsync => exact ⟨rfl, loadTasks_set_tmp fs tag _⟩
  | failRename => exact ⟨rfl, loadTasks_set_tmp fs tag _⟩

theorem saveFailurePreservesDocument_witness :
    (saveTasks (fun _ => none) "master" .nil .failRename "torn-bytes").1 = .error .writeFailure ∧
    loadTasks (saveTasks (fun _ => none) "master" .nil .failRename "torn-bytes").2 "master" =
      loadTasks (fun _ => none) "master" :=
  saveFailurePreservesDocument (fun _ => none) "master" .nil .failRename "torn-bytes" (by decide)

/-- C2: whenever `AutoFix` returns successfully, `Validate` on the
resulting collection reports no `Cycle` entries; and whenever it fails,
the error is `UnresolvableCycle` (reached at its fixed iteration bound). -/
theorem autoFixClearsCycles :
    (∀ (c c2 : TmTasks) (r : List (TaskId × TaskId)), autoFix c = .ok (c2, r) →
      (validateDeps c2).all (fun v => !v.isCycle) = true) ∧
    (∀ (c : TmTasks) (e : TMErr), autoFix c = .error e → e = .unresolvableCycle) := by
  constructor
  · intro c c2 r h
    rw [autoFix] at h
    have hcy := autoFixLoop_ok _ _ _ _ _ h
    have hv := validateDeps_no_cycle hcy
    refine List.all_eq_true.mpr ?_
    intro v hvm
    rw [hv v hvm]
    rfl
  · intro c e h
    rw [autoFix] at h
    exact autoFixLoop_error _ _ _ _ h

theorem autoFixClearsCycles_witness :
    (validateDeps cFixed).all (fun v => !v.isCycle) = true :=
  autoFixClearsCycles.1 cCyc cFixed [([2], [1])] (by decide)

/-- C3: for a task with an unmet dependency, `setStatus(id, done)` without
the override flag fails with `DependencyNotSatisfied` and leaves the
collection unchanged; with the override flag the call succeeds, sets the
status to `done`, and reports the unmet dependencies in the result. -/
theorem setStatusDependencyGate (c : TmTasks) (id : TaskId) (t : TmTask) (d : TaskId)
    (hres : resolveT c id = .ok t) (hd : d ∈ t.dependencies) (hnd : depDone c d = false) :
    setStatusRun c id .done false = (c, .error .dependencyNotSatisfied) ∧
    (setStatusRun c id .done true).2 = .ok (unmetDeps c t) ∧
    d ∈ unmetDeps c t ∧
    (resolveT (setStatusRun c id .done true).1 id).map TmTask.status = .ok .done := by
  have hdm : d ∈ unmetDeps c t := by
    refine List.mem_filter.mpr ⟨hd, ?_⟩
    rw [hnd]
    rfl
  have hne : unmetDeps c t ≠ [] := by
    intro hnil
    rw [hnil] at hdm
    exact List.not_mem_nil d hdm
  obtain ⟨u, us, huu⟩ := List.exists_cons_of_ne_nil hne
  have h1f : setStatusOp c id .done false = setStatusCheck c id .done false (unmetDeps c t) := by
    rw [setStatusOp, hres]
  have h1t : setStatusOp c id .done true = setStatusCheck c id .done true (unmetDeps c t) := by
    rw [setStatusOp, hres]
  have hE : setStatusOp c id .done false = .error .dependencyNotSatisfied := by
    rw [h1f, huu]
    rfl
  have hOk : setStatusOp c id .done true = .ok (updStatus c id .done, unmetDeps c t) := by
    rw [h1t, huu]
    rfl
  refine ⟨?_, ?_, hdm, ?_⟩
  · rw [setStatusRun, hE]
  · rw [setStatusRun, hOk]
  · have hfst : (setStatusRun c id .done true).1 = updStatus c id .done := by
      rw [setStatusRun, hOk]
    rw [hfst, resolveT_updStatus id c .done t hres]
    show Except.ok (t.withStatus .done).status = .ok .done
    rw [status_withStatus]

theorem setStatusDependencyGate_witness :
    setStatusRun cScen [2] .done false = (cScen, .error .dependencyNotSatisfied) ∧
    (setStatusRun cScen [2] .done true).2 = .ok (unmetDeps cScen s2Scen) ∧
    [1] ∈ unmetDeps cScen s2Scen ∧
    (resolveT (setStatusRun cScen [2] .done true).1 [2]).map TmTask.status = .ok .done :=
  setStatusDependencyGate cScen [2] s2Scen [1] (by decide) (by decide) (by decide)

/-- C4: `getNextTask()` returns none exactly when no task is eligible
(status `pending` with every dependency resolving to a `done` task);
otherwise it returns an eligible task minimal under the selection order
(highest priority, then fewest not-yet-done dependents, then lowest
identifier), and any two order-equivalent tasks share the identifier, so
this task is unique; it is a pure function of the collection, so repeated
calls on an unchanged collection agree.  On the two-task scenario
collection it returns task 1, and after `setStatus(1, done)` it returns
task 2. -/
theorem getNextTaskSpec :
    (∀ c : TmTasks, getNextTask c = none ↔ ∀ t ∈ flattenTasks c, eligibleB c t = false) ∧
    (∀ (c : TmTasks) (t : TmTask), getNextTask c = some t →
      t ∈ flattenTasks c ∧ eligibleB c t = true ∧
      ∀ u ∈ flattenTasks c, eligibleB c u = true → selKey c t ≤ selKey c u) ∧
    (∀ (c : TmTasks) (t u : TmTask),
      selKey c t ≤ selKey c u → selKey c u ≤ selKey c t → t.id = u.id) ∧
    (getNextTask cScen).map TmTask.id = some [1] ∧
    (getNextTask (setStatusRun cScen [1] .done false).1).map TmTask.id = some [2] := by
  refine ⟨?_, ?_, ?_, by decide, by decide⟩
  · intro c
    rw [getNextTask, List.argmin_eq_none, List.filter_eq_nil_iff]
    simp only [Bool.not_eq_true]
  · intro c t h
    have hargmin : t ∈ ((flattenTasks c).filter (eligibleB c)).argmin (selKey c) :=
      Option.mem_def.mpr h
    have hmem := List.argmin_mem hargmin
    obtain ⟨hmem2, helig⟩ := List.mem_filter.mp hmem
    refine ⟨hmem2, helig, ?_⟩
    intro u hu heu
    exact List.le_of_mem_argmin (List.mem_filter.mpr ⟨hu, heu⟩) hargmin
  · intro c t u h1 h2
    exact selKey_eq_id (le_antisymm h1 h2)

theorem getNextTaskSpec_witness :
    (getNextTask cScen).map TmTask.id = some [1] ∧ s2Scen.id = s2Scen.id :=
  ⟨getNextTaskSpec.2.2.2.1, getNextTaskSpec.2.2.1 cScen s2Scen s2Scen (by decide) (by decide)⟩

/-- C5: `Save(tag, collection)` followed by `Load(tag)` yields a collection
equal field-for-field to the one saved, for any well-formed collection
with nested subtasks at depth at least 3, with unknown fields of the
persisted document preserved across the round-trip. -/
theorem saveLoadRoundtrip (fs : FsState) (tag : String) (c : TmTasks) (bytes : String)
    (hwf : wfTasks c = true) (hdepth : 3 ≤ depthTasks c) :
    loadTasks (saveTasks fs tag c .ok bytes).2 tag = .ok c := by
  have hfs2 : (saveTasks fs tag c .ok bytes).2
      = (fs.set (tmpPath tag) none).set (docPath tag) (some (.whole (serializeColl c))) := rfl
  have hset : ((fs.set (tmpPath tag) none).set (docPath tag)
      (some (.whole (serializeColl c)))) (docPath tag) = some (.whole (serializeColl c)) := by
    rw [FsState.set, if_pos rfl]
  rw [hfs2, loadTasks, hset]
  exact parse_serializeTasks c hwf

theorem saveLoadRoundtrip_witness :
    wfTasks cDepth3 = true ∧ 3 ≤ depthTasks cDepth3 ∧
    loadTasks (saveTasks (fun _ => none) "master" cDepth3 .ok "").2 "master" = .ok cDepth3 :=
  ⟨by decide, by decide,
    saveLoadRoundtrip (fun _ => none) "master" cDepth3 "" (by decide) (by decide)⟩

/-- C6: an identifier string containing an empty segment, a non-numeric
segment, or a segment with leading zeros beyond a single `"0"` fails
`parse` with `MalformedIdentifier`; in particular `"1..2"` does.  Resolving
the well-formed `"1.2"` against a collection with a single top-level task
and no subtasks fails with `NotFound`. -/
theorem identifierErrorReporting :
    (∀ s : String, (∃ seg ∈ s.data.splitOn '.', validSeg seg = false) →
      parseTaskId s = .error .malformedIdentifier) ∧
    parseTaskId "1..2" = .error .malformedIdentifier ∧
    (∀ t : TmTask, t.subtasks = .nil → resolveT (.cons t .nil) [1, 2] = .error .notFound) := by
  refine ⟨?_, by decide, ?_⟩
  · intro s h
    rw [parseTaskId]
    exact parseSegs_error_of_bad h
  · intro t h
    have h1 : resolveT (.cons t .nil) [1, 2] = resolveT t.subtasks [2] := rfl
    rw [h1, h]
    decide

theorem identifierErrorReporting_witness :
    parseTaskId "1.x" = .error .malformedIdentifier :=
  identifierErrorReporting.1 "1.x" ⟨['x'], by decide, by decide⟩

/-- C7: for every identifier string on which `parse` succeeds, parsing the
rendering of the parse result gives back the same result, so
`parse(render(parse(s))) = parse(s)`. -/
theorem parseRenderRoundtrip (s : String) (segs : TaskId) (h : parseTaskId s = .ok segs) :
    parseTaskId (renderTaskId segs) = .ok segs :=
  parseTaskId_render (parseTaskId_ok_ne_nil h)

theorem parseRenderRoundtrip_witness :
    parseTaskId (renderTaskId [1, 10]) = .ok [1, 10] :=
  parseRenderRoundtrip "1.10" [1, 10] (by decide)

/-- C8: for every core operation and every starting state with a coherent
config cache, running the operation under the cached/lazy policy returns
the same result as under the always-consistent policy, and both runs leave
the cache coherent; an absent or unrecognized `mode` value selects the
always-consistent policy. -/
theorem modePolicyEquivalence :
    (∀ (st : CoreState) (op : Op), cacheOk st →
      (runOp .solo st op).1 = (runOp .standard st op).1 ∧
      cacheOk (runOp .solo st op).2 ∧ cacheOk (runOp .standard st op).2) ∧
    parseMode none = .standard ∧
    (∀ s : String, s ≠ "solo" → parseMode (some s) = .standard) := by
  refine ⟨?_, rfl, ?_⟩
  · intro st op h
    exact ⟨runOp_result_eq st op h, runOp_cacheOk .solo st op h, runOp_cacheOk .standard st op h⟩
  · intro s h
    rw [parseMode, if_neg h]

theorem modePolicyEquivalence_witness :
    (runOp .solo stEx .loadConfig).1 = (runOp .standard stEx .loadConfig).1 :=
  (modePolicyEquivalence.1 stEx .loadConfig (Or.inr rfl)).1

/-- C9: for every environment in which the user's answer to the
confirmation prompt does not lowercase to exactly `"y"`, the installer
performs no filesystem mutation: no backup rename, no binary copy and no
chmod occur, and it returns cancelled (or had already exited before the
prompt). -/
theorem installerCancelNoMutation (env : InstallEnv)
    (h : jsToLowerCase env.answer ≠ "y") :
    actionsOf (installerMain env) = [] ∧
    (installerMain env = .cancelled ∨ installerMain env = .exited 1) := by
  rw [installerMain]
  by_cases hb : (!env.binaryBuilt && !env.buildOk) = true
  · rw [if_pos hb]
    exact ⟨rfl, Or.inr rfl⟩
  · rw [if_neg hb]
    cases hd : installDirSrc env with
    | none =>
      exact ⟨rfl, Or.inr rfl⟩
    | some dir =>
      constructor
      · show actionsOf (installerConfirm env dir) = []
        rw [installerConfirm, if_pos h]
        rfl
      · left
        show installerConfirm env dir = .cancelled
        rw [installerConfirm, if_pos h]

theorem installerCancelNoMutation_witness :
    actionsOf (installerMain envC9) = [] ∧
    (installerMain envC9 = .cancelled ∨ installerMain envC9 = .exited 1) :=
  installerCancelNoMutation envC9 (by decide)

/-- C10 counterexample: an environment (linux, no existing `task-master`
found, both `/opt/homebrew/bin` and `/usr/local/bin` in `PATH` and
existing) on which the live installer and the PRD-embedded installer copy
compute different installation directories. -/
theorem installDirsDiffer : installDirSrc envDiv ≠ installDirPrd envDiv := by decide

/-- C10 amended: when no existing `task-master` is located (the `which`
lookup fails or returns an empty string) and at most one candidate
directory is both in `PATH` and existing, the two installers compute the
same installation directory. -/
theorem installDirsAgreeWhenUnambiguous (env : InstallEnv)
    (hw : whichEffective env = none)
    (hcount : (srcCandidates env).countP (candPass env) ≤ 1) :
    installDirSrc env = installDirPrd env := by
  rw [installDirSrc, installDirPrd]
  by_cases hplat : env.platform = "darwin" ∨ env.platform = "linux"
  · rw [if_pos hplat, if_pos hplat, hw]
    show some (pickCandidate env (srcCandidates env)) = some (pickCandidate env (prdCandidates env))
    rw [srcCandidates] at hcount
    rw [pickCandidate, pickCandidate, srcCandidates, prdCandidates]
    by_cases h1 : candPass env "/opt/homebrew/bin" = true <;>
      by_cases h2 : candPass env "/usr/local/bin" = true <;>
      by_cases h3 : candPass env (env.home ++ "/.local/bin") = true <;>
      simp_all [List.filter_cons, List.filter_nil, List.countP_cons, List.countP_nil]
  · rw [if_neg hplat, if_neg hplat]

theorem installDirsAgreeWhenUnambiguous_witness :
    installDirSrc envAgree = installDirPrd envAgree :=
  installDirsAgreeWhenUnambiguous envAgree (by decide) (by decide)
